import Mathlib

/-!
# Shallow embedding of the ioBroker.ai-assistant deterministic intent core

This file embeds, in Lean 4, the deterministic intent-resolution layer of the
ioBroker.ai-assistant adapter:

* `IntentParser` (src/unnamed/part_000): `parse`, `_matchRoom`, `_matchFunction`,
  `_detectAction`, `_hasValuePattern`, `_extractValue`, `_calcConfidence`,
  `_hasSwitchVerb`, `_levenshtein`;
* `EnumResolver` (src/lib/enumResolver.js): `load`, `findStates`, `_findEnum`,
  `searchByDeviceName`, `filterByDeviceName`, `_collectHierarchyNames`,
  `getWritableStates`, `_getName`;
* the fast-path executor `_executeFastIntent` and the confidence threshold of
  `_processText` (src/unnamed/part_009).

Modelling conventions:

* JavaScript numbers are modelled as exact rationals (`ℚ`); the confidence
  additions and value parsing stay within small decimal fractions.
* Strings are processed as `List Char`; state/enum identifiers stay `String`.
* The asynchronous ioBroker object store is modelled as an explicit read-only
  environment (`Store`): `getForeignObjectAsync` becomes a pure lookup
  `String → Option IobObject` (a fetch that throws behaves, at every call site
  modelled here, like a fetch that returns no object: both are caught or
  null-checked and the target is skipped), `getForeignStateAsync` a lookup of
  the numeric state value, and `setForeignStateAsync` reports success/failure
  through `writeFails` (a failing write throws and is caught by the executor).
* JS `Map`/`Set` iteration order is insertion order; they are modelled as
  association lists / first-occurrence-deduplicated lists.
* The regular expressions of the parser are embedded as bespoke scanning
  functions; each carries a comment naming the regex it implements and the
  (finitely many) backtracking alternatives of the JS engine it reproduces.
-/

namespace AiAssistant

/-! ## JS string primitives -/

/-- JS regex `\s` and `trim`/`split(/\s+/)` whitespace, restricted to the ASCII
whitespace present in the parser's inputs. -/
def isWs (c : Char) : Bool :=
  c == ' ' || c == '\t' || c == '\n' || c == '\r'

/-- JS regex `\w` word characters: `[A-Za-z0-9_]` (umlauts are *not* `\w`). -/
def isWordChar (c : Char) : Bool :=
  ('a' ≤ c && c ≤ 'z') || ('A' ≤ c && c ≤ 'Z') || ('0' ≤ c && c ≤ '9') || c == '_'

/-- JS regex `\d`. -/
def isDigitChar (c : Char) : Bool :=
  '0' ≤ c && c ≤ '9'

/-- Line terminators that JS `.` (without the `s` flag) does not match. -/
def isNewlineChar (c : Char) : Bool :=
  c == '\n' || c == '\r'

/-- Embeds `String.prototype.toLowerCase`, restricted to ASCII letters and the German
uppercase letters appearing in the adapter's vocabulary. -/
def jsCharLower (c : Char) : Char :=
  if 'A' ≤ c && c ≤ 'Z' then Char.ofNat (c.toNat + 32)
  else if c == 'Ä' then 'ä'
  else if c == 'Ö' then 'ö'
  else if c == 'Ü' then 'ü'
  else c

def jsToLower (s : List Char) : List Char := s.map jsCharLower

/-- Embeds `String.prototype.trim` (both ends). -/
def jsTrim (s : List Char) : List Char :=
  ((s.dropWhile isWs).reverse.dropWhile isWs).reverse

/-- Embeds `String.prototype.includes(needle)`: substring containment. -/
def strContains : List Char → List Char → Bool
  | _, [] => true
  | [], _ :: _ => false
  | c :: cs, needle =>
    needle.isPrefixOf (c :: cs) || strContains cs needle

/-- Embeds `String.prototype.endsWith(suffix)`. -/
def strEndsWith (s suffix : List Char) : Bool :=
  suffix.reverse.isPrefixOf s.reverse

/-- Embeds `str.split(sep)` for a single-character separator (used with `'.'`).
Always returns at least one (possibly empty) piece, like JS. -/
def splitOnChar (sep : Char) : List Char → List (List Char)
  | [] => [[]]
  | c :: cs =>
    let rest := splitOnChar sep cs
    if c == sep then [] :: rest
    else
      match rest with
      | [] => [[c]]
      | p :: ps => (c :: p) :: ps

/-- Embeds `id.split('.').pop()`: the trailing path segment (`split` is never empty). -/
def lastSegment (s : List Char) : List Char :=
  (splitOnChar '.' s).getLastD []

mutual

/-- Embeds `str.split(regex)` where the regex matches a nonempty run of characters
satisfying `p` (e.g. `/\s+/`, `/[\s_\-\.]+/`): a maximal run is one separator.
A leading (trailing) run produces a leading (trailing) empty piece, as in JS. -/
def splitRuns (p : Char → Bool) : List Char → List (List Char)
  | [] => [[]]
  | c :: cs =>
    if p c then [] :: splitRunsSkip p cs
    else
      match splitRuns p cs with
      | [] => [[c]]
      | piece :: ps => (c :: piece) :: ps

/-- Consume the remainder of a separator run, then continue splitting. -/
def splitRunsSkip (p : Char → Bool) : List Char → List (List Char)
  | [] => [[]]
  | c :: cs =>
    if p c then splitRunsSkip p cs
    else
      match splitRuns p cs with
      | [] => [[c]]
      | piece :: ps => (c :: piece) :: ps

end

/-- Embeds `str.split(/\s+/)` (used by `_hasSwitchVerb`). -/
def splitWs (s : List Char) : List (List Char) := splitRuns isWs s

/-- Shorthand for string literals used as character lists. -/
def lit (s : String) : List Char := s.toList

/-! ## Numeric tokens

`\d+(?:[.,]\d+)?` and `parseFloat(m.replace(',', '.'))`. -/

/-- A maximal match of `\d+(?:[.,]\d+)?` at the head of the input: the integer
digit run, the optional decimal separator with its digit run, and the rest. -/
structure NumToken where
  intPart : List Char
  fracPart : Option (Char × List Char)
  rest : List Char
  deriving DecidableEq, Repr

/-- Greedy match of `\d+(?:[.,]\d+)?` at the head of the input (none if the
input does not start with a digit). -/
def takeNumber (cs : List Char) : Option NumToken :=
  let p := cs.span isDigitChar
  if p.1 = [] then none
  else
    match p.2 with
    | c :: r2 =>
      if c == '.' || c == ',' then
        let q := r2.span isDigitChar
        if q.1 = [] then some ⟨p.1, none, p.2⟩ else some ⟨p.1, some (c, q.1), q.2⟩
      else some ⟨p.1, none, p.2⟩
    | [] => some ⟨p.1, none, []⟩

def digitsToNat (ds : List Char) : Nat :=
  ds.foldl (fun n c => 10 * n + (c.toNat - '0'.toNat)) 0

/-- Embeds `parseFloat(match[1].replace(',', '.'))` on a matched number token. -/
def numValue (t : NumToken) : ℚ :=
  match t.fracPart with
  | none => digitsToNat t.intPart
  | some (_, d2) => (digitsToNat t.intPart : ℚ) + (digitsToNat d2 : ℚ) / (10 ^ d2.length)

/-! ## Value regexes of `_extractValue` / `_hasValuePattern`

The JS engine scans start positions left to right and backtracks at each.  For
the patterns below the only backtracking alternative that can ever succeed
after the greedy attempt fails is dropping the optional fractional part
`(?:[.,]\d+)?` entirely: shortening a digit run leaves a digit at the match
point, and no continuation (`\s*`+unit literal, or a word boundary) accepts a
digit there; likewise no unit literal starts with `.` or `,`. -/

/-- Embeds `\s*(?:u₁|u₂|…)` at the head of `rest`:  `\s*` is greedy and the unit
literals start with non-whitespace, so maximal munch is exact. -/
def unitFollows (units : List (List Char)) (rest : List Char) : Bool :=
  units.any (fun u => u.isPrefixOf (rest.dropWhile isWs))

/-- One attempt of `/(\d+(?:[.,]\d+)?)\s*(?:u₁|u₂)/` at the head of the input,
with the JS backtracking fallback to the integer part alone. -/
def tryNumUnitAt (units : List (List Char)) (cs : List Char) : Option ℚ :=
  match takeNumber cs with
  | none => none
  | some t =>
    if unitFollows units t.rest then some (numValue t)
    else
      match t.fracPart with
      | some (sep, d2) =>
        if unitFollows units (sep :: (d2 ++ t.rest)) then some ((digitsToNat t.intPart : ℚ))
        else none
      | none => none

/-- Leftmost match of `/(\d+(?:[.,]\d+)?)\s*(?:u₁|u₂)/` (patterns 1 and 2 of
`_extractValue`), returning the parsed capture. -/
def findNumUnit (units : List (List Char)) : List Char → Option ℚ
  | [] => none
  | c :: cs =>
    match tryNumUnitAt units (c :: cs) with
    | some v => some v
    | none => findNumUnit units cs

/-- The preposition alternation `(?:auf|setze|stelle|stell)`, in source order
(matters for backtracking: `stelle` is tried before its prefix `stell`). -/
def valuePreps : List (List Char) := [lit "auf", lit "setze", lit "stelle", lit "stell"]

mutual

/-- The lazy loop `(?:\w+\s+)*?(\d+(?:[.,]\d+)?)` of pattern 3: at each
iteration boundary the capture (a digit) is tried first (lazy `*?`). -/
def prepLazyLoop : List Char → Option ℚ
  | [] => none
  | c :: cs =>
    if isDigitChar c then (takeNumber (c :: cs)).map numValue
    else if isWordChar c then prepWord cs
    else none

/-- Inside the greedy `\w+` of a loop iteration (maximal munch is exact: a
shorter `\w+` leaves a word character where `\s+` must match). -/
def prepWord : List Char → Option ℚ
  | [] => none
  | c :: cs =>
    if isWordChar c then prepWord cs
    else if isWs c then prepWs cs
    else none

/-- Inside the greedy `\s+`/`\s*` run before the next loop iteration. -/
def prepWs : List Char → Option ℚ
  | [] => none
  | c :: cs =>
    if isWs c then prepWs cs
    else if isDigitChar c then (takeNumber (c :: cs)).map numValue
    else if isWordChar c then prepWord cs
    else none

end

/-- Embeds `\s+` after a matched preposition, then the lazy loop. -/
def afterPrep : List Char → Option ℚ
  | [] => none
  | c :: cs => if isWs c then prepWs cs else none

/-- Try each preposition alternative (with its full continuation, as the JS
engine backtracks through the alternation) at the current position. -/
def tryPrepsAt : List (List Char) → List Char → Option ℚ
  | [], _ => none
  | p :: ps, cs =>
    match (if p.isPrefixOf cs then afterPrep (cs.drop p.length) else none) with
    | some v => some v
    | none => tryPrepsAt ps cs

/-- Leftmost match of `/(?:auf|setze|stelle|stell)\s+(?:\w+\s+)*?(\d+(?:[.,]\d+)?)/`
(pattern 3 of `_extractValue`), returning the parsed capture. -/
def findPrepNumber : List Char → Option ℚ
  | [] => none
  | c :: cs =>
    match tryPrepsAt valuePreps (c :: cs) with
    | some v => some v
    | none => findPrepNumber cs

/-- One attempt of `/\b(\d+(?:[.,]\d+)?)\b/` at the head of the input (the
leading `\b` is checked by the caller); falls back to the integer part, after
which the boundary lands on the `[.,]` separator. -/
def tryStandaloneAt (cs : List Char) : Option ℚ :=
  match takeNumber cs with
  | none => none
  | some t =>
    if (match t.rest with | [] => true | c :: _ => ¬ isWordChar c) then some (numValue t)
    else
      match t.fracPart with
      | some (sep, _) => if ¬ isWordChar sep then some ((digitsToNat t.intPart : ℚ)) else none
      | none => none

/-- Leftmost match of `/\b(\d+(?:[.,]\d+)?)\b/` (pattern 4 of `_extractValue`);
`prevIsWord` tracks whether the previous character was a word character, which
decides the leading word boundary. -/
def findStandalone (prevIsWord : Bool) : List Char → Option ℚ
  | [] => none
  | c :: cs =>
    if isDigitChar c && !prevIsWord then
      match tryStandaloneAt (c :: cs) with
      | some v => some v
      | none => findStandalone (isWordChar c) cs
    else findStandalone (isWordChar c) cs

/-- Embeds `.*?\d` where `.` does not match line terminators (no `s` flag). -/
def dotStarDigit : List Char → Bool
  | [] => false
  | c :: cs => isDigitChar c || (!isNewlineChar c && dotStarDigit cs)

/-- Embeds `/(?:auf|setze|stelle|stell)\s.*?\d/.test(lower)` (note: a single `\s`). -/
def hasPrepDigit : List Char → Bool
  | [] => false
  | c :: cs =>
    (valuePreps.any fun p =>
      p.isPrefixOf (c :: cs) &&
      (match (c :: cs).drop p.length with
       | d :: ds => isWs d && dotStarDigit ds
       | [] => false))
    || hasPrepDigit cs

/-- The unit alternation of the second test regex: `(?:prozent|grad|%|°)`. -/
def allValueUnits : List (List Char) := [lit "prozent", lit "grad", lit "%", lit "°"]

/-- Embeds `/\d+\s*(?:prozent|grad|%|°)/.test(lower)`. -/
def hasNumUnitPattern : List Char → Bool
  | [] => false
  | c :: cs =>
    (isDigitChar c && unitFollows allValueUnits ((c :: cs).dropWhile isDigitChar))
    || hasNumUnitPattern cs

/-- Embeds `IntentParser._hasValuePattern`. -/
def hasValuePattern (lower : List Char) : Bool :=
  hasPrepDigit lower || hasNumUnitPattern lower

/-! ## `_extractValue` -/

inductive MeasureUnit where
  | percent
  | degree
  deriving DecidableEq, Repr

structure ValueInfo where
  value : ℚ
  unit : Option MeasureUnit
  deriving DecidableEq, Repr

def percentUnits : List (List Char) := [lit "prozent", lit "%"]

def degreeUnits : List (List Char) := [lit "grad", lit "°"]

/-- Embeds `IntentParser._extractValue`: regex cascade — percent pattern, degree
pattern, "preposition + number" with range-based unit inference, then a bare
standalone number. -/
def extractValue (lower : List Char) : Option ValueInfo :=
  match findNumUnit percentUnits lower with
  | some v => some ⟨v, some .percent⟩
  | none =>
  match findNumUnit degreeUnits lower with
  | some v => some ⟨v, some .degree⟩
  | none =>
  match findPrepNumber lower with
  | some v =>
    if v ≤ 100 ∧ 30 < v then some ⟨v, some .percent⟩
    else if 5 ≤ v ∧ v ≤ 30 then some ⟨v, some .degree⟩
    else some ⟨v, none⟩
  | none =>
  match findStandalone false lower with
  | some v => some ⟨v, none⟩
  | none => none

/-! ## `_levenshtein` and `_hasSwitchVerb` -/

/-- One inner loop (over `j`) of `IntentParser._levenshtein`: given the
remaining characters of `a`, the previous matrix row starting at `prev[j-1]`
and the freshly computed `new[j-1]`, produce `new[j], new[j+1], …`. -/
def levNextRow (bc : Char) : List Char → List Nat → Nat → List Nat
  | [], _, _ => []
  | ac :: as, prev, left =>
    match prev with
    | [] => []
    | diag :: prevRest =>
      let cost := if ac = bc then 0 else 1
      let cell := Nat.min (Nat.min (prevRest.headD 0 + 1) (left + 1)) (diag + cost)
      cell :: levNextRow bc as prevRest cell

/-- Embeds `IntentParser._levenshtein`: dynamic-programming edit distance, one matrix
row per character of `b`, with the early returns for empty inputs. -/
def levenshtein (a b : List Char) : Nat :=
  if a.length = 0 then b.length
  else if b.length = 0 then a.length
  else
    let row0 := List.range (a.length + 1)
    let final := b.foldl (fun (st : List Nat × Nat) bc =>
      let i := st.2 + 1
      (i :: levNextRow bc a st.1 i, i)) (row0, 0)
    final.1.getLastD 0

def switchTargets : List (List Char) := [lit "schalte", lit "schalten", lit "schalt"]

/-- Embeds `IntentParser._hasSwitchVerb`: exact `schalt`/`mach` substring, else any
whitespace-split word within edit distance 2 of a `schalte` form. -/
def hasSwitchVerb (lower : List Char) : Bool :=
  if strContains lower (lit "schalt") || strContains lower (lit "mach") then true
  else (splitWs lower).any (fun word => switchTargets.any (fun t => levenshtein word t ≤ 2))

/-! ## `_detectAction` -/

inductive ActionType where
  | set_on
  | set_off
  | set_value
  | increase
  | decrease
  | query
  deriving DecidableEq, Repr

/-- The `{ type, keyword }` result of `_detectAction`. -/
structure ActionMatch where
  type : ActionType
  keyword : List Char
  deriving DecidableEq, Repr

def increaseWords : List (List Char) :=
  [lit "heller", lit "wärmer", lit "höher", lit "mehr", lit "lauter", lit "rauf",
   lit "aufdrehen", lit "hochdrehen", lit "erhöhe", lit "erhöhen"]

def decreaseWords : List (List Char) :=
  [lit "dunkler", lit "kälter", lit "niedriger", lit "weniger", lit "leiser", lit "runter",
   lit "zudrehen", lit "herunterdrehen", lit "reduziere", lit "reduzieren", lit "dimme", lit "dimmen"]

def onWords : List (List Char) :=
  [lit "einschalten", lit "anschalten", lit "anmachen", lit "aufmachen", lit "aktivieren",
   lit "starten", lit "öffne", lit "öffnen"]

def onEndWords : List (List Char) := [lit " ein", lit " an"]

def offWords : List (List Char) :=
  [lit "ausschalten", lit "abschalten", lit "ausmachen", lit "zumachen", lit "deaktivieren",
   lit "stoppen", lit "schließe", lit "schließen"]

def offEndWords : List (List Char) := [lit " aus"]

def queryPatterns : List (List Char) :=
  [lit "wie warm", lit "wie kalt", lit "wie hell", lit "wie dunkel", lit "wie hoch", lit "wie viel",
   lit "wieviel", lit "welche temperatur", lit "was ist", lit "wie ist", lit "zeig", lit "status",
   lit "ist das", lit "ist die", lit "ist der", lit "sind die"]

/-- First keyword of the list contained in the text (the `for`/`includes`
loops of `_detectAction`). -/
def findKeyword (lower : List Char) (ws : List (List Char)) : Option (List Char) :=
  ws.find? (fun w => strContains lower w)

/-- The two-word-pattern test of `_detectAction`:
`lower.endsWith(word.trim()) || lower.includes(word+' ') || lower.includes(word+'.') || lower.includes(word+'!')`. -/
def endWordHit (lower w : List Char) : Bool :=
  strEndsWith lower (jsTrim w) || strContains lower (w ++ [' ']) ||
  strContains lower (w ++ ['.']) || strContains lower (w ++ ['!'])

/-- Embeds `IntentParser._detectAction`: the ordered first-match-wins rule cascade. -/
def detectAction (lower : List Char) : Option ActionMatch :=
  if hasValuePattern lower then some ⟨.set_value, lit "set_value"⟩ else
  match findKeyword lower increaseWords with
  | some w => some ⟨.increase, w⟩
  | none =>
  match findKeyword lower decreaseWords with
  | some w => some ⟨.decrease, w⟩
  | none =>
  match findKeyword lower onWords with
  | some w => some ⟨.set_on, w⟩
  | none =>
  match onEndWords.find? (endWordHit lower) with
  | some w => some ⟨.set_on, jsTrim w⟩
  | none =>
  if strContains lower (lit "mach") && (strEndsWith lower (lit "an") || strEndsWith lower (lit "ein")) then
    some ⟨.set_on, lit "mach...an"⟩
  else if hasSwitchVerb lower && (strContains lower (lit " ein") || strContains lower (lit " an")) then
    some ⟨.set_on, lit "schalte...ein"⟩
  else
  match findKeyword lower offWords with
  | some w => some ⟨.set_off, w⟩
  | none =>
  match offEndWords.find? (endWordHit lower) with
  | some w => some ⟨.set_off, jsTrim w⟩
  | none =>
  if hasSwitchVerb lower && strContains lower (lit " aus") then
    some ⟨.set_off, lit "schalte...aus"⟩
  else
  match findKeyword lower queryPatterns with
  | some w => some ⟨.query, w⟩
  | none =>
  if strContains lower (lit "?") then some ⟨.query, lit "?"⟩
  else none

/-! ## Enum groups and `_matchRoom` / `_matchFunction` -/

/-- An entry of the resolver's `rooms`/`functions` maps:
`{ id, name, members }`.  The maps are modelled as lists of entries in
insertion order (JS `Map` iterates in insertion order). -/
structure EnumGroup where
  id : String
  name : String
  members : List String
  deriving DecidableEq, Repr

/-- The `{ name, id }` result of `_matchRoom` / `_matchFunction`. -/
structure EnumMatch where
  name : String
  id : String
  deriving DecidableEq, Repr

def enumNameLower (g : EnumGroup) : List Char := jsToLower g.name.toList

/-- Embeds `room.id.split('.').pop().toLowerCase()`. -/
def enumSuffixLower (g : EnumGroup) : List Char := jsToLower (lastSegment g.id.toList)

/-- The `roomAliases` table of `_matchRoom`. -/
def roomAliases : List (List (List Char)) :=
  [[lit "wohnzimmer", lit "wohnraum", lit "stube", lit "living_room", lit "living room", lit "livingroom"],
   [lit "schlafzimmer", lit "bedroom", lit "schlafraum"],
   [lit "badezimmer", lit "bad", lit "bathroom", lit "bath"],
   [lit "küche", lit "kueche", lit "kitchen"],
   [lit "büro", lit "buero", lit "arbeitszimmer", lit "office"],
   [lit "kinderzimmer", lit "children", lit "kids"],
   [lit "flur", lit "diele", lit "gang", lit "corridor", lit "hallway"],
   [lit "keller", lit "basement"],
   [lit "dachboden", lit "dachgeschoss", lit "attic"],
   [lit "garten", lit "garden", lit "terrasse", lit "balkon"],
   [lit "garage", lit "carport"],
   [lit "esszimmer", lit "essbereich", lit "dining"],
   [lit "gästezimmer", lit "gäste", lit "guest"]]

/-- The `aliasGroups` table of `_matchFunction`. -/
def functionAliases : List (List (List Char)) :=
  [[lit "licht", lit "lampe", lit "lampen", lit "beleuchtung", lit "leuchte", lit "leuchten", lit "lighting", lit "light"],
   [lit "heizung", lit "thermostat", lit "temperatur", lit "heizkörper", lit "heizen", lit "heating"],
   [lit "rollladen", lit "rolladen", lit "rollo", lit "jalousie", lit "jalousien", lit "beschattung", lit "shutter", lit "blind", lit "blinds"],
   [lit "steckdose", lit "stecker", lit "dose", lit "socket", lit "outlet"],
   [lit "fenster", lit "fensterkontakt", lit "fenstersensor", lit "window"],
   [lit "tür", lit "türkontakt", lit "türsensor", lit "door"],
   [lit "ventilator", lit "lüfter", lit "fan"],
   [lit "musik", lit "audio", lit "lautsprecher", lit "speaker", lit "media"]]

/-- The alias-based second pass shared by `_matchRoom` and `_matchFunction`:
for the first alias group hit by the user text, return the first enum whose
name or id-suffix contains one of the group's terms; groups whose hit finds no
enum fall through to the next group. -/
def aliasScan (entries : List EnumGroup) (aliasGroups : List (List (List Char)))
    (lower : List Char) : Option EnumMatch :=
  aliasGroups.findSome? (fun group =>
    if group.any (fun a => strContains lower a) then
      (entries.find? (fun e => group.any (fun a =>
        strContains (enumNameLower e) a || strContains (enumSuffixLower e) a))).map
        (fun e => EnumMatch.mk e.name e.id)
    else none)

/-- Embeds `IntentParser._matchRoom`: direct enum-name/id-suffix containment, then
the room alias groups. -/
def matchRoom (rooms : List EnumGroup) (lower : List Char) : Option EnumMatch :=
  match rooms.find? (fun room =>
      strContains lower (enumNameLower room) || strContains lower (enumSuffixLower room)) with
  | some room => some ⟨room.name, room.id⟩
  | none => aliasScan rooms roomAliases lower

/-- Embeds `IntentParser._matchFunction`: direct enum-name/id-suffix containment,
then the function alias groups. -/
def matchFunction (functions : List EnumGroup) (lower : List Char) : Option EnumMatch :=
  match functions.find? (fun f =>
      strContains lower (enumNameLower f) || strContains lower (enumSuffixLower f)) with
  | some f => some ⟨f.name, f.id⟩
  | none => aliasScan functions functionAliases lower

/-! ## The object store environment -/

/-- Embeds `common.name` of an ioBroker object: a plain string or a multilingual
map (`de`/`en`, with `firstVal` standing for `Object.values(name)[0]`). -/
inductive IobName where
  | str (s : String)
  | langMap (de en firstVal : Option String)
  deriving DecidableEq, Repr

/-- The `common` metadata of a device object, as read by the resolver and the
fast-path executor. -/
structure IobObject where
  name : Option IobName
  type : Option String
  write : Option Bool
  role : Option String
  min : Option ℚ
  max : Option ℚ
  deriving DecidableEq, Repr

/-- The external ioBroker store, as seen through the adapter's async calls.
All reads are modelled as pure lookups; a read that throws behaves, at every
call site embedded here, exactly like a read returning nothing (every caller
either catches or null-checks), so both are modelled as `none`. -/
structure Store where
  /-- Embeds `getForeignObjectAsync(id)`. -/
  objects : String → Option IobObject
  /-- Embeds `getForeignStateAsync(id)`: the current (numeric) state value; `none`
  when there is no state (or the read fails). -/
  states : String → Option ℚ
  /-- The ids returned by `getForeignObjectsAsync('0_userdata.0.*', 'state')`
  (a failing fetch is caught and contributes no ids). -/
  userdataIds : List String
  /-- Embeds `setForeignStateAsync(id, …)` throws for this id. -/
  writeFails : String → Bool

/-- Embeds `EnumResolver._getName`, with JS falsiness: the empty string does not
count, and absent names fall back to the object's id (`'Unbekannt'` if even
that is empty). -/
def jsOrStr (a : Option String) (b : String) : String :=
  match a with
  | some s => if s = "" then b else s
  | none => b

def getName (objId : String) (n : Option IobName) : String :=
  match n with
  | none => if objId = "" then "Unbekannt" else objId
  | some (.str s) => if s = "" then (if objId = "" then "Unbekannt" else objId) else s
  | some (.langMap de en firstVal) => jsOrStr de (jsOrStr en (jsOrStr firstVal objId))

/-! ## The resolver state and `_findEnum` / `findStates` -/

/-- The in-memory state of `EnumResolver`: the two enum collections and the
two reverse indexes, all in insertion order. -/
structure Resolver where
  rooms : List EnumGroup
  functions : List EnumGroup
  stateToRooms : List (String × List String)
  stateToFunctions : List (String × List String)
  deriving DecidableEq, Repr

/-- The combined alias table of `EnumResolver._findEnum` (tier 5). -/
def resolverAliases : List (List (List Char)) :=
  [[lit "licht", lit "lampe", lit "lampen", lit "beleuchtung", lit "leuchte", lit "leuchten", lit "lighting", lit "light"],
   [lit "heizung", lit "thermostat", lit "temperatur", lit "heizkörper", lit "heizen", lit "heating"],
   [lit "rollladen", lit "rolladen", lit "rollo", lit "jalousie", lit "jalousien", lit "beschattung", lit "shutter", lit "blind", lit "blinds"],
   [lit "steckdose", lit "stecker", lit "dose", lit "socket", lit "outlet"],
   [lit "fenster", lit "fensterkontakt", lit "fenstersensor", lit "window"],
   [lit "tür", lit "türkontakt", lit "türsensor", lit "door"],
   [lit "ventilator", lit "lüfter", lit "fan"],
   [lit "wohnzimmer", lit "wohnraum", lit "stube", lit "living_room", lit "livingroom"],
   [lit "schlafzimmer", lit "bedroom", lit "schlafraum"],
   [lit "badezimmer", lit "bad", lit "bathroom"],
   [lit "küche", lit "kueche", lit "kitchen"],
   [lit "büro", lit "buero", lit "arbeitszimmer", lit "office"],
   [lit "kinderzimmer", lit "children", lit "kids"],
   [lit "flur", lit "diele", lit "gang", lit "corridor", lit "hallway"],
   [lit "esszimmer", lit "essbereich", lit "dining"]]

/-- Embeds `EnumResolver._findEnum`: tiered fuzzy matching, first tier that finds an
entry wins (within a tier, first entry in map order wins). -/
def findEnum (entries : List EnumGroup) (searchName : String) : Option EnumGroup :=
  let search := jsToLower (jsTrim searchName.toList)
  match entries.find? (fun e => enumNameLower e == search) with
  | some e => some e
  | none =>
  match entries.find? (fun e => strContains (enumNameLower e) search) with
  | some e => some e
  | none =>
  match entries.find? (fun e => strContains search (enumNameLower e)) with
  | some e => some e
  | none =>
  match entries.find? (fun e =>
      enumSuffixLower e == search || strContains (enumSuffixLower e) search ||
      strContains search (enumSuffixLower e)) with
  | some e => some e
  | none =>
    resolverAliases.findSome? (fun group =>
      if group.any (fun a => strContains a search || strContains search a) then
        entries.find? (fun e => group.any (fun a =>
          strContains (enumNameLower e) a || strContains a (enumNameLower e) ||
          strContains (enumSuffixLower e) a || strContains a (enumSuffixLower e)))
      else none)

/-- Embeds `new Set(list)` (and JS `Set` iteration): first-occurrence deduplication. -/
def jsSetOfList (l : List String) : List String :=
  l.foldl (fun acc x => if x ∈ acc then acc else acc ++ [x]) []

/-- Embeds `fId.startsWith(rId + '.')`: `fId` lies strictly below `rId` in the
dot-separated hierarchy (prefix test on the character lists). -/
def isPathChild (fId rId : String) : Bool :=
  List.isPrefixOf (rId.toList ++ ['.']) fId.toList

/-- The forward pass of the hierarchical intersection in
`EnumResolver.findStates`: each room member contributes itself when it is also
a function member, and otherwise every function member strictly below it. -/
def forwardPass (roomM funcM : List String) : List String :=
  roomM.flatMap (fun rId =>
    if rId ∈ funcM then [rId]
    else funcM.filter (fun fId => isPathChild fId rId))

/-- Inner loop of the reverse pass: room members strictly below `fId` are
appended unless already present (`!result.includes(rId)`). -/
def revInner (fId : String) (acc : List String) : List String → List String
  | [] => acc
  | rId :: rest =>
    revInner fId (if isPathChild rId fId ∧ rId ∉ acc then acc ++ [rId] else acc) rest

/-- The reverse pass of the hierarchical intersection. -/
def revPass (acc : List String) (roomM : List String) : List String → List String
  | [] => acc
  | fId :: rest => revPass (revInner fId acc roomM) roomM rest

/-- Embeds `EnumResolver.findStates({room, function})`.  `if (room)` is a JS
falsiness test, so an empty-string name counts as absent. -/
def findStates (r : Resolver) (roomName funcName : Option String) : List String :=
  let roomName := match roomName with | some s => if s = "" then none else some s | none => none
  let funcName := match funcName with | some s => if s = "" then none else some s | none => none
  match roomName, funcName with
  | some rn, some fn =>
    match findEnum r.rooms rn with
    | none => []
    | some re =>
      match findEnum r.functions fn with
      | none => []
      | some fe =>
        let roomM := jsSetOfList re.members
        let funcM := jsSetOfList fe.members
        revPass (forwardPass roomM funcM) roomM funcM
  | some rn, none =>
    match findEnum r.rooms rn with
    | some re => jsSetOfList re.members
    | none => []
  | none, some fn =>
    match findEnum r.functions fn with
    | some fe => jsSetOfList fe.members
    | none => []
  | none, none => []

/-! ## `_collectHierarchyNames`, `searchByDeviceName`, `filterByDeviceName` -/

/-- The `genericWords` stoplist of `_collectHierarchyNames`. -/
def genericWords : List String :=
  ["state", "status", "value", "wert", "set", "get", "on", "off",
   "level", "switch", "sensor", "true", "false", "brightness",
   "reachable", "battery", "alive", "connected", "working"]

/-- JS `Set.add`: append unless present (keeps insertion order). -/
def setAdd (l : List String) (x : String) : List String :=
  if x ∈ l then l else l ++ [x]

/-- Embeds `low.split(/[\s_\-\.]+/)`. -/
def nameWords (low : String) : List String :=
  (splitRuns (fun c => isWs c || c == '_' || c == '-' || c == '.') low.toList).map List.asString

/-- The `addName` closure of `_collectHierarchyNames`: the lowercased full
name (unless generic), plus each sub-word of length ≥ 3 that is not generic. -/
def addName (names : List String) (fullName : String) : List String :=
  if fullName = "" ∨ fullName.length < 2 then names
  else
    let low := (jsToLower fullName.toList).asString
    let names := if low ∈ genericWords then names else setAdd names low
    (nameWords low).foldl
      (fun ns w => if w.length ≥ 3 ∧ w ∉ genericWords then setAdd ns w else ns) names

/-- Embeds `EnumResolver._collectHierarchyNames`: significant names from the state
object, its parent channel (object name and id segment) and its parent
device. -/
def collectHierarchyNames (st : Store) (stateId : String) (names : List String) : List String :=
  let names :=
    match st.objects stateId with
    | some obj => addName names (getName stateId obj.name)
    | none => names
  let parts := (splitOnChar '.' stateId.toList).map List.asString
  let names :=
    if parts.length > 2 then
      let channelId := String.intercalate "." parts.dropLast
      let names :=
        match st.objects channelId with
        | some obj => addName names (getName channelId obj.name)
        | none => names
      let seg := parts.getD (parts.length - 2) ""
      let segLow := (jsToLower seg.toList).asString
      if seg ≠ "" ∧ seg.length ≥ 3 ∧ segLow ∉ genericWords then setAdd names segLow
      else names
    else names
  if parts.length > 3 then
    let deviceId := String.intercalate "." (parts.dropLast.dropLast)
    match st.objects deviceId with
    | some obj => addName names (getName deviceId obj.name)
    | none => names
  else names

/-- The `{ stateId, deviceName }` result of `searchByDeviceName`. -/
structure DirectMatch where
  stateId : String
  deviceName : String
  deriving DecidableEq, Repr

/-- An entry of the `matches` array in `searchByDeviceName`. -/
structure ScoredMatch where
  stateId : String
  deviceName : String
  nameLength : Nat
  deriving DecidableEq, Repr

/-- Stable insertion for `matches.sort((a, b) => b.nameLength - a.nameLength)`
(JS `Array.prototype.sort` is stable). -/
def insertByLenDesc (x : ScoredMatch) : List ScoredMatch → List ScoredMatch
  | [] => [x]
  | y :: ys => if y.nameLength < x.nameLength then x :: y :: ys else y :: insertByLenDesc x ys

def sortByLenDesc (l : List ScoredMatch) : List ScoredMatch :=
  l.foldr insertByLenDesc []

/-- Embeds `EnumResolver.searchByDeviceName`: unambiguous direct device-name lookup
over all enum members plus the user-data namespace; with several matches the
longest one wins only with a margin of more than 2 characters. -/
def searchByDeviceName (st : Store) (r : Resolver) (userText : List Char) : Option DirectMatch :=
  let lower := jsToLower userText
  let candidateIds := jsSetOfList
    (r.rooms.flatMap (·.members) ++ r.functions.flatMap (·.members) ++ st.userdataIds)
  let found := candidateIds.filterMap (fun stateId =>
    let names := collectHierarchyNames st stateId []
    (names.find? (fun name => name.length ≥ 4 && strContains lower name.toList)).map
      (fun name => ScoredMatch.mk stateId name name.length))
  if found.length = 1 then
    found.head?.map (fun m => DirectMatch.mk m.stateId m.deviceName)
  else if found.length > 1 then
    match sortByLenDesc found with
    | best :: secondBest :: _ =>
      if best.nameLength > secondBest.nameLength + 2 then
        some (DirectMatch.mk best.stateId best.deviceName)
      else none
    | _ => none
  else none

/-- The `{ stateIds, deviceName }` result of `filterByDeviceName`. -/
structure FilterResult where
  stateIds : List String
  deviceName : Option String
  deriving DecidableEq, Repr

/-- JS `Map.set` on an association list: overwrite in place or append. -/
def mapSet (m : List (String × List String)) (k : String) (v : List String) :
    List (String × List String) :=
  if m.any (fun p => p.1 == k) then m.map (fun p => if p.1 == k then (k, v) else p)
  else m ++ [(k, v)]

/-- Embeds `EnumResolver.filterByDeviceName`: narrow a multi-candidate set by the
most discriminating hierarchy name appearing in the text (longest first,
then fewest owners); unchanged when no discriminating name exists. -/
def filterByDeviceName (st : Store) (stateIds : List String) (userText : List Char) :
    FilterResult :=
  if stateIds.length ≤ 1 then ⟨stateIds, none⟩
  else
    let lower := jsToLower userText
    let built := stateIds.foldl
      (fun (acc : List (String × List String) × List String) sid =>
        let names := collectHierarchyNames st sid []
        (mapSet acc.1 sid names, names.foldl setAdd acc.2))
      ([], [])
    let stateNameSets := built.1
    let allNames := built.2
    let nameToOwners := allNames.filterMap (fun name =>
      if name.length < 3 then none
      else if !(strContains lower name.toList) then none
      else some (name, stateNameSets.filterMap (fun p => if name ∈ p.2 then some p.1 else none)))
    let best := nameToOwners.foldl
      (fun (b : Option (String × List String)) p =>
        if p.2.length = 0 ∨ p.2.length = stateIds.length then b
        else
          match b with
          | none => some p
          | some q =>
            if p.1.length > q.1.length ∨ (p.1.length = q.1.length ∧ p.2.length < q.2.length) then
              some p
            else b)
      none
    match best with
    | some q => ⟨q.2, some q.1⟩
    | none => ⟨stateIds, none⟩

/-- Embeds `EnumResolver.getWritableStates`: keep ids whose object metadata exists
and is not explicitly read-only (`common.write !== false`); unfetchable
metadata excludes the id. -/
def getWritableStates (st : Store) (stateIds : List String) : List String :=
  stateIds.filter (fun id =>
    match st.objects id with
    | some obj => obj.write ≠ some false
    | none => false)

/-! ## `EnumResolver.load` -/

/-- An object returned by `getForeignObjectsAsync('enum.rooms.*', 'enum')`
(or `enum.functions.*`): its id, `common.name` and `common.members`
(`|| []` when absent). -/
structure RawEnumObject where
  id : String
  name : Option IobName
  members : Option (List String)
  deriving DecidableEq, Repr

/-- The reverse-index update of `load`:
`if (!map.has(member)) map.set(member, []); map.get(member).push(name)`. -/
def revIndexAdd (m : List (String × List String)) (member nm : String) :
    List (String × List String) :=
  if m.any (fun p => p.1 == member) then
    m.map (fun p => if p.1 == member then (p.1, p.2 ++ [nm]) else p)
  else m ++ [(member, [nm])]

/-- One grouping type of `load`: build the enum collection and its reverse
index from the fetched objects, skipping the root enum object. -/
def buildGroups (rootId : String) (objs : List RawEnumObject) :
    List EnumGroup × List (String × List String) :=
  objs.foldl
    (fun (acc : List EnumGroup × List (String × List String)) obj =>
      if obj.id = rootId then acc
      else
        let nm := getName obj.id obj.name
        let members := obj.members.getD []
        (acc.1 ++ [EnumGroup.mk obj.id nm members],
         members.foldl (fun m mem => revIndexAdd m mem nm) acc.2))
    ([], [])

/-- Embeds `EnumResolver.load`: both collections are cleared first and rebuilt inside
`try`/`catch`, so a failed fetch leaves that collection (and its reverse
index) empty — a warning log is the only signal — while the other grouping
type is processed independently; the previous resolver state never survives,
and no exception escapes. -/
def load (roomsFetch funcsFetch : Except String (List RawEnumObject)) : Resolver :=
  let roomsBuilt :=
    match roomsFetch with
    | .ok objs => buildGroups "enum.rooms" objs
    | .error _ => ([], [])
  let funcsBuilt :=
    match funcsFetch with
    | .ok objs => buildGroups "enum.functions" objs
    | .error _ => ([], [])
  ⟨roomsBuilt.1, funcsBuilt.1, roomsBuilt.2, funcsBuilt.2⟩

/-! ## `_calcConfidence` and `parse` -/

/-- Embeds `IntentParser._calcConfidence`. -/
def calcConfidence (room func : Option EnumMatch) (action : Option ActionMatch)
    (valueInfo : Option ValueInfo) : ℚ :=
  let score : ℚ := 3/10
  let score := if room.isSome then score + 2/10 else score
  let score := if func.isSome then score + 2/10 else score
  let score := if action.isSome then score + 2/10 else score
  let score := if valueInfo.isSome ∧ (action.map (·.type)) = some .set_value then score + 1/10
               else score
  let score := if room.isSome ∧ func.isSome then score + 1/10 else score
  min score 1

/-- The structured intent returned by `IntentParser.parse`. -/
structure ParsedIntent where
  action : ActionType
  room : Option String
  function : Option String
  deviceName : Option String
  value : Option ℚ
  unit : Option MeasureUnit
  confidence : ℚ
  stateIds : List String
  deriving DecidableEq, Repr

/-- Embeds `room?.name || null`: the matched name, with an empty string collapsing
to JS `null`. -/
def jsNameOpt (m : Option EnumMatch) : Option String :=
  match m with
  | some em => if em.name = "" then none else some em.name
  | none => none

/-- Embeds `text.toLowerCase().trim()`, the normalisation at the top of `parse`. -/
def lowerTrim (text : String) : List Char := jsTrim (jsToLower text.toList)

/-- Embeds `IntentParser.parse` (src/unnamed/part_000, lines 45–133): room/function
context matching, the direct device-name fallback when not both matched, the
write-action safety gate, value extraction, state resolution, device-name
narrowing and confidence scoring. -/
def parse (st : Store) (r : Resolver) (text : String) : Option ParsedIntent :=
  let lower := lowerTrim text
  let room := matchRoom r.rooms lower
  let func := matchFunction r.functions lower
  -- Step 2b: direct device-name fallback, only when NOT both room and function
  let direct : Option ParsedIntent :=
    if room.isNone ∨ func.isNone then
      match searchByDeviceName st r lower with
      | some directMatch =>
        match detectAction lower with
        | some action =>
          let valueInfo := extractValue lower
          some { action := action.type
                 room := none
                 function := none
                 deviceName := some directMatch.deviceName
                 value := valueInfo.map (·.value)
                 unit := valueInfo.bind (·.unit)
                 confidence := 17/20
                 stateIds := [directMatch.stateId] }
        | none => none
      | none => none
    else none
  match direct with
  | some intent => some intent
  | none =>
    -- need at least one context match
    if room.isNone ∧ func.isNone then none
    else
      match detectAction lower with
      | none => none
      | some action =>
        -- SAFETY: non-query actions require BOTH room AND function
        if action.type ≠ .query ∧ (room.isNone ∨ func.isNone) then none
        else
          let valueInfo := extractValue lower
          let stateIds0 := findStates r (room.map (·.name)) (func.map (·.name))
          if stateIds0.length = 0 then none
          else
            let filtered :=
              if stateIds0.length > 1 then filterByDeviceName st stateIds0 lower
              else FilterResult.mk stateIds0 none
            let confidence := calcConfidence room func (some action) valueInfo
            some { action := action.type
                   room := jsNameOpt room
                   function := jsNameOpt func
                   deviceName := filtered.deviceName
                   value := valueInfo.map (·.value)
                   unit := valueInfo.bind (·.unit)
                   confidence := min (if filtered.deviceName.isSome then confidence + 1/20
                                      else confidence) 1
                   stateIds := filtered.stateIds }

/-! ## The fast-path executor (`AiAssistant._executeFastIntent`) -/

/-- A JS value written to a state: boolean or number. -/
inductive JsVal where
  | b (v : Bool)
  | n (v : ℚ)
  deriving DecidableEq, Repr

/-- An entry of the `executed` array: `{ stateId, name, value }`. -/
structure ExecutedAction where
  stateId : String
  name : String
  value : JsVal
  deriving DecidableEq, Repr

/-- The fast-path success result (`step: 'fast-path'`); the human-readable
`response` string built by `_buildFastResponse` is not modelled (no claim
depends on its wording). -/
structure FastResult where
  action : ActionType
  room : Option String
  function : Option String
  confidence : ℚ
  executed : List ExecutedAction
  denied : List String
  deriving DecidableEq, Repr

/-- Embeds `current.val || 0` for a numeric state value. -/
def jsOrZero (q : ℚ) : ℚ := if q = 0 then 0 else q

/-- The per-state `switch (intent.action)` of `_executeFastIntent`: the value
to write, or `none` when the target is skipped (`continue`). -/
def fastIntentValue (st : Store) (intent : ParsedIntent) (stateId : String)
    (obj : IobObject) : Option JsVal :=
  let stateType := obj.type
  let role := (obj.role.getD "").toList
  match intent.action with
  | .set_on =>
    if stateType = some "boolean" then some (.b true)
    else if stateType = some "number" then
      -- dimmer/level → 100, otherwise 1
      some (.n (if strContains role (lit "level") || strContains role (lit "dimmer") then 100 else 1))
    else some (.b true)
  | .set_off =>
    if stateType = some "boolean" then some (.b false)
    else if stateType = some "number" then some (.n 0)
    else some (.b false)
  | .set_value =>
    match intent.value with
    | none => none
    | some v =>
      if stateType = some "number" then some (.n v)
      else if stateType = some "boolean" then some (.b (v ≠ 0))
      else some (.n v)
  | .increase =>
    match st.states stateId with
    | none => none
    | some cur =>
      if stateType ≠ some "number" then none
      else
        let step : ℚ := if strContains role (lit "temperature") then 1 else 10
        let mx := obj.max.getD (if strContains role (lit "temperature") then 30 else 100)
        some (.n (min (jsOrZero cur + step) mx))
  | .decrease =>
    match st.states stateId with
    | none => none
    | some cur =>
      if stateType ≠ some "number" then none
      else
        let step : ℚ := if strContains role (lit "temperature") then 1 else 10
        let mn := obj.min.getD 0
        some (.n (max (jsOrZero cur - step) mn))
  | .query => none

/-- Embeds `AiAssistant._executeFastIntent` (src/unnamed/part_009, lines 390–482):
resolve writable states, compute and write the per-state value, skip
inapplicable targets, collect throwing writes under `denied` (modelled as the
list of their ids; a metadata or state read that throws is modelled as the
read returning nothing, which skips the target instead — the `executed` list
and the nothing-vs-success outcome are unaffected), and return nothing when
no writable state exists or nothing was executed. -/
def executeFastIntent (st : Store) (intent : ParsedIntent) :
    Option FastResult :=
  let writableIds := getWritableStates st intent.stateIds
  if writableIds.length = 0 then none
  else
    let runs := writableIds.foldl
      (fun (acc : List ExecutedAction × List String) stateId =>
        match st.objects stateId with
        | none => acc
        | some obj =>
          match fastIntentValue st intent stateId obj with
          | none => acc
          | some v =>
            if st.writeFails stateId then (acc.1, acc.2 ++ [stateId])
            else (acc.1 ++ [ExecutedAction.mk stateId (getName stateId obj.name) v], acc.2))
      ([], [])
    if runs.1.length = 0 then none
    else
      some { action := intent.action
             room := intent.room
             function := intent.function
             confidence := intent.confidence
             executed := runs.1
             denied := runs.2 }

/-- The fast-path confidence threshold of `AiAssistant._processText`
(`intent.confidence >= 0.6`). -/
def confidenceThreshold : ℚ := 6/10

/-! ## Concrete environments used to instantiate the theorems -/

/-- A store with no objects, no states and no user-data namespace. -/
def emptyStore : Store := ⟨fun _ => none, fun _ => none, [], fun _ => false⟩

/-- Only a `Licht` function enum; no rooms. -/
def resLicht : Resolver := ⟨[], [⟨"enum.functions.licht", "Licht", ["a.b"]⟩], [], []⟩

/-- Room members `a` and `a.b` are nested (one a strict path-ancestor of the
other); the function member `a.b.c` lies below both. -/
def resNested : Resolver :=
  ⟨[⟨"enum.rooms.r", "R", ["a", "a.b"]⟩], [⟨"enum.functions.f", "F", ["a.b.c"]⟩], [], []⟩

/-- Room member `a.b`, function member `a.b.c` (child direction). -/
def resChild : Resolver :=
  ⟨[⟨"enum.rooms.r", "R", ["a.b"]⟩], [⟨"enum.functions.f", "F", ["a.b.c"]⟩], [], []⟩

/-- Room member `a.b.c`, function member `a.b` (parent direction). -/
def resParent : Resolver :=
  ⟨[⟨"enum.rooms.r", "R", ["a.b.c"]⟩], [⟨"enum.functions.f", "F", ["a.b"]⟩], [], []⟩

/-- Room member `a.b` is itself a function member, and the function enum also
contains its child `a.b.c`. -/
def resOverlap : Resolver :=
  ⟨[⟨"enum.rooms.r", "R", ["a.b"]⟩], [⟨"enum.functions.f", "F", ["a.b", "a.b.c"]⟩], [], []⟩

/-- Only a room enum. -/
def resRoomOnly : Resolver := ⟨[⟨"enum.rooms.r", "R", ["a.b"]⟩], [], [], []⟩

/-- The same room enum plus a function enum over the same member. -/
def resRoomFunc : Resolver :=
  ⟨[⟨"enum.rooms.r", "R", ["a.b"]⟩], [⟨"enum.functions.f", "F", ["a.b"]⟩], [], []⟩

/-- A single boolean switch whose object name is `Standventilator`. -/
def fanStore : Store :=
  ⟨fun id => if id = "x.fan.sw" then
      some ⟨some (.str "Standventilator"), some "boolean", none, none, none, none⟩
    else none,
   fun _ => none, [], fun _ => false⟩

/-- A `Büro` room enum containing the fan switch; no function enums. -/
def resBuero : Resolver := ⟨[⟨"enum.rooms.buero", "Büro", ["x.fan.sw"]⟩], [], [], []⟩

/-- A single writable boolean lamp. -/
def lampStore : Store :=
  ⟨fun id => if id = "a.b" then
      some ⟨some (.str "Lampe"), some "boolean", none, none, none, none⟩
    else none,
   fun _ => none, [], fun _ => false⟩

/-- A fully matched switch-on intent over the lamp. -/
def lampIntent : ParsedIntent :=
  ⟨.set_on, some "R", some "Licht", none, none, none, 1, ["a.b"]⟩

/-! ## Theorems -/

/-- Claim C8 — `load()` failure policy: `load` is a total function of the two
fetch outcomes (no exception escapes, by construction of the embedding: both
loops sit inside `try`/`catch`); when the fetch of one grouping type fails,
that collection and its reverse index are left empty (the collections are
cleared before the fetch), while the other grouping type is still built
normally from its own fetch. -/
theorem load_failure_policy (e : String) (objs : List RawEnumObject) :
    load (Except.error e) (Except.ok objs) =
      ⟨[], (buildGroups "enum.functions" objs).1, [], (buildGroups "enum.functions" objs).2⟩ ∧
    load (Except.ok objs) (Except.error e) =
      ⟨(buildGroups "enum.rooms" objs).1, [], (buildGroups "enum.rooms" objs).2, []⟩ ∧
    load (Except.error e) (Except.error e) = ⟨[], [], [], []⟩ :=
  ⟨rfl, rfl, rfl⟩

/-- Claim C9 — fast-path empty-execution fallback: the executor never returns a
success result with zero executed state mutations; whenever no writable state
exists, or every target was skipped or its write failed, it returns nothing
(so the caller falls through to the LLM pipeline). -/
theorem executeFastIntent_no_empty_success (st : Store) (intent : ParsedIntent)
    (res : FastResult) (h : executeFastIntent st intent = some res) :
    res.executed ≠ [] := by
  unfold executeFastIntent at h
  dsimp only at h
  split at h
  · exact absurd h (by simp)
  · split at h
    · exact absurd h (by simp)
    · rename_i hlen
      injection h with h'
      subst h'
      intro hnil
      exact hlen (by simp only [List.length_eq_zero]; exact hnil)

/-- Witness for C9: a concrete environment where the executor succeeds, with
a nonempty executed list. -/
theorem executeFastIntent_no_empty_success_witness :
    (FastResult.mk .set_on (some "R") (some "Licht") 1
      [⟨"a.b", "Lampe", .b true⟩] []).executed ≠ [] :=
  executeFastIntent_no_empty_success lampStore lampIntent _ (by decide)

/-- Claim C4, counterexample — on an intent with a room match and a detected
action (and no extracted value), `_calcConfidence` scores 0.7; additionally
matching a function scores 1.0 — an increase of 0.3, not the claimed exact
0.2; and on the resulting intent the device-name bump of `parse`
(`+ 0.05`, capped) adds 0, not 0.05. -/
theorem confidence_monotonicity_cex :
    calcConfidence (some ⟨"R", "enum.rooms.r"⟩) none (some ⟨.query, lit "wie warm"⟩) none
        = 7/10 ∧
      calcConfidence (some ⟨"R", "enum.rooms.r"⟩) (some ⟨"F", "enum.functions.f"⟩)
          (some ⟨.query, lit "wie warm"⟩) none
        = 1 ∧
      (1 : ℚ) ≠ 7/10 + 2/10 ∧
      min ((1 : ℚ) + 1/20) 1 ≠ 1 + 1/20 := by
  refine ⟨?_, ?_, by norm_num, by rw [min_def]; norm_num⟩ <;>
    · unfold calcConfidence
      norm_num [min_def]

/-- Claim C4, amended — additionally matching a function adds 0.3 before the
cap (0.2 for the function plus 0.1 for the room-and-function bonus), capped
at 1.0; the increase is strict; and since room+function+action already reach
the 1.0 cap, subsequent device-name narrowing (+0.05) is absorbed by the cap
and adds nothing. -/
theorem confidence_monotonicity_amended (rm fm : EnumMatch) (a : ActionMatch)
    (v : Option ValueInfo) :
    calcConfidence (some rm) (some fm) (some a) v
        = min (calcConfidence (some rm) none (some a) v + 3/10) 1 ∧
      calcConfidence (some rm) none (some a) v
        < calcConfidence (some rm) (some fm) (some a) v ∧
      min (calcConfidence (some rm) (some fm) (some a) v + 1/20) 1
        = calcConfidence (some rm) (some fm) (some a) v := by
  unfold calcConfidence
  by_cases hv : v.isSome ∧ (Option.map (fun m => m.type) (some a)) = some ActionType.set_value <;>
    simp only [hv, Option.isSome_some, if_true, if_false, and_self, and_true, true_and] <;>
    norm_num [min_def]

/-- Claim C5 — value/unit inference boundary: with no percent/degree marker
match and a number matched after a preposition, `_extractValue` infers the
unit from the range: above 30 up to 100 is percent, 5 to 30 inclusive is
degree, anything else is unitless. -/
theorem extractValue_range_inference (lower : List Char) (v : ℚ)
    (h1 : findNumUnit percentUnits lower = none)
    (h2 : findNumUnit degreeUnits lower = none)
    (h3 : findPrepNumber lower = some v) :
    extractValue lower = some ⟨v,
      if v ≤ 100 ∧ 30 < v then some .percent
      else if 5 ≤ v ∧ v ≤ 30 then some .degree
      else none⟩ := by
  simp only [extractValue, h1, h2, h3]
  split_ifs <;> rfl

/-- Witness for C5: `"… auf 30"` is the top of the degree range and
`"… auf 31"` the bottom of the percent range. -/
theorem extractValue_range_inference_witness :
    extractValue (lit "stelle die heizung auf 30") = some ⟨30, some .degree⟩ ∧
    extractValue (lit "stelle die heizung auf 31") = some ⟨31, some .percent⟩ := by
  constructor
  · rw [extractValue_range_inference (lit "stelle die heizung auf 30") 30
      (by decide) (by decide) (by decide)]
    norm_num
  · rw [extractValue_range_inference (lit "stelle die heizung auf 31") 31
      (by decide) (by decide) (by decide)]
    norm_num

/-- Inversion of `parse`: a returned intent comes either from the direct
device-name branch or from the room/function branch, with the guard
conditions of each branch recorded verbatim.  Shared helper for the
claim theorems below. -/
theorem parse_some_cases (st : Store) (r : Resolver) (text : String) (i : ParsedIntent)
    (L : List Char) (rm fn : Option EnumMatch)
    (hL : L = lowerTrim text) (hrm : rm = matchRoom r.rooms L)
    (hfn : fn = matchFunction r.functions L)
    (h : parse st r text = some i) :
    ((rm.isNone ∨ fn.isNone) ∧
      ∃ d a, searchByDeviceName st r L = some d ∧ detectAction L = some a ∧
        i = ⟨a.type, none, none, some d.deviceName, (extractValue L).map (·.value),
             (extractValue L).bind (·.unit), 17/20, [d.stateId]⟩)
    ∨
    (∃ a sids fl, detectAction L = some a ∧
      ¬(rm.isNone ∧ fn.isNone) ∧
      ¬(a.type ≠ .query ∧ (rm.isNone ∨ fn.isNone)) ∧
      sids = findStates r (rm.map (·.name)) (fn.map (·.name)) ∧
      ¬(sids.length = 0) ∧
      fl = (if sids.length > 1 then filterByDeviceName st sids L else FilterResult.mk sids none) ∧
      i = ⟨a.type, jsNameOpt rm, jsNameOpt fn, fl.deviceName, (extractValue L).map (·.value),
           (extractValue L).bind (·.unit),
           min (if fl.deviceName.isSome then calcConfidence rm fn (some a) (extractValue L) + 1/20
                else calcConfidence rm fn (some a) (extractValue L)) 1,
           fl.stateIds⟩) := by
  subst hL
  subst hrm
  subst hfn
  unfold parse at h
  dsimp only at h
  split at h
  · rename_i intent heq
    split at heq
    · rename_i hcond
      split at heq
      · rename_i d hd
        split at heq
        · rename_i a ha
          injection heq with heq'
          injection h with h'
          subst h'
          subst heq'
          exact Or.inl ⟨hcond, d, a, hd, ha, rfl⟩
        · exact absurd heq (by simp)
      · exact absurd heq (by simp)
    · exact absurd heq (by simp)
  · split at h
    · exact absurd h (by simp)
    · rename_i hnn
      split at h
      · exact absurd h (by simp)
      · rename_i a ha
        split at h
        · exact absurd h (by simp)
        · rename_i hgate
          split at h
          · exact absurd h (by simp)
          · rename_i hlen
            injection h with h'
            subst h'
            exact Or.inr ⟨a, _, _, ha, hnn, hgate, rfl, hlen, rfl, rfl⟩

/-- Claim C1 — safety gate: when action detection yields a write action (not
`query`), at most one of room/function matched, and no unambiguous direct
device-name match exists, `parse` returns nothing. -/
theorem parse_write_safety_gate (st : Store) (r : Resolver) (text : String) (a : ActionMatch)
    (ha : detectAction (lowerTrim text) = some a)
    (hw : a.type ≠ .query)
    (hone : matchRoom r.rooms (lowerTrim text) = none ∨
            matchFunction r.functions (lowerTrim text) = none)
    (hdirect : searchByDeviceName st r (lowerTrim text) = none) :
    parse st r text = none := by
  cases hp : parse st r text with
  | none => rfl
  | some i =>
    rcases parse_some_cases st r text i _ _ _ rfl rfl rfl hp with
      ⟨_, d, a', hd, _, _⟩ | ⟨a', sids, fl, ha', _, hgate, _⟩
    · rw [hdirect] at hd
      exact absurd hd (by simp)
    · rw [ha] at ha'
      injection ha' with haa
      refine absurd ⟨haa ▸ hw, ?_⟩ hgate
      rcases hone with h1 | h1
      · exact Or.inl (by simp [h1])
      · exact Or.inr (by simp [h1])

/-- Witness for C1: `"schalte das licht ein"` detects the write action
`set_on`, matches only the function `Licht` (no room), and has no direct
device match, so `parse` returns nothing. -/
theorem parse_write_safety_gate_witness :
    parse emptyStore resLicht "schalte das licht ein" = none :=
  parse_write_safety_gate emptyStore resLicht "schalte das licht ein"
    ⟨.set_on, lit "ein"⟩ (by decide) (by decide) (Or.inl (by decide)) (by decide)

/-- Claim C6, counterexample — on `"standventilator büro ein"` the room `Büro`
matches, yet `parse` still attempts (and uses) the direct device-name match:
the returned intent is the direct-device one (`room = null`, device
`standventilator`), so the direct fallback is *not* restricted to the case
where neither room nor function matched. -/
theorem direct_fallback_cex :
    matchRoom resBuero.rooms (lowerTrim "standventilator büro ein") ≠ none ∧
    (parse fanStore resBuero "standventilator büro ein").map
        (fun i => (i.room, i.function, i.deviceName, i.stateIds))
      = some (none, none, some "standventilator", ["x.fan.sw"]) :=
  ⟨by decide, by decide⟩

/-- Claim C6, amended — the direct device-name fallback is attempted exactly
when *not both* room and function matched: with both matched, the returned
intent carries the matched room and function names (the room/function path);
with at most one matched, a successful unambiguous device search plus a
detected action yields precisely the direct-device intent. -/
theorem direct_fallback_not_both (st : Store) (r : Resolver) (text : String) (i : ParsedIntent)
    (h : parse st r text = some i) :
    (∀ rm fn, matchRoom r.rooms (lowerTrim text) = some rm →
       matchFunction r.functions (lowerTrim text) = some fn →
       i.room = jsNameOpt (some rm) ∧ i.function = jsNameOpt (some fn)) ∧
    (∀ d a, (matchRoom r.rooms (lowerTrim text) = none ∨
             matchFunction r.functions (lowerTrim text) = none) →
       searchByDeviceName st r (lowerTrim text) = some d →
       detectAction (lowerTrim text) = some a →
       i = ⟨a.type, none, none, some d.deviceName, (extractValue (lowerTrim text)).map (·.value),
            (extractValue (lowerTrim text)).bind (·.unit), 17/20, [d.stateId]⟩) := by
  constructor
  · intro rm fn hrm hfn
    rcases parse_some_cases st r text i _ _ _ rfl rfl rfl h with
      ⟨hcond, _, _, _, _, _⟩ | ⟨a, sids, fl, _, _, _, _, _, _, hi⟩
    · rw [hrm, hfn] at hcond
      simp at hcond
    · rw [hi, hrm, hfn]
      exact ⟨rfl, rfl⟩
  · intro d a hone hd ha
    have hc : (matchRoom r.rooms (lowerTrim text)).isNone ∨
        (matchFunction r.functions (lowerTrim text)).isNone := by
      rcases hone with h1 | h1
      · exact Or.inl (by simp [h1])
      · exact Or.inr (by simp [h1])
    unfold parse at h
    dsimp only at h
    rw [if_pos hc, hd, ha] at h
    injection h with h'
    exact h'.symm

/-- Witness for C6: with room `Büro` matched but no function, the
unambiguous device `Standventilator` plus the `set_on` action yields the
direct-device intent. -/
theorem direct_fallback_not_both_witness :
    parse fanStore resBuero "standventilator büro ein"
      = some ⟨.set_on, none, none, some "standventilator", none, none, 17/20, ["x.fan.sw"]⟩ := by
  have hs : (parse fanStore resBuero "standventilator büro ein").isSome = true := by decide
  obtain ⟨i, hi⟩ := Option.isSome_iff_exists.mp hs
  have h2 := (direct_fallback_not_both fanStore resBuero "standventilator büro ein" i hi).2
    ⟨"x.fan.sw", "standventilator"⟩ ⟨.set_on, lit "ein"⟩
    (Or.inr (by decide)) (by decide) (by decide)
  rw [hi, h2, show extractValue (lowerTrim "standventilator büro ein") = none from by decide]
  rfl

/-- Lower and upper bounds of `_calcConfidence` when an action is present and
at least one of room/function matched: the score is between 0.7 and 1. -/
theorem calcConfidence_bounds (rm fn : Option EnumMatch) (a : ActionMatch) (v : Option ValueInfo)
    (hc : rm.isSome ∨ fn.isSome) :
    7/10 ≤ calcConfidence rm fn (some a) v ∧ calcConfidence rm fn (some a) v ≤ 1 := by
  rcases rm with _ | rm <;> rcases fn with _ | fn
  · simp at hc
  all_goals
    unfold calcConfidence
    dsimp only
    simp only [Option.isSome_none, Option.isSome_some, Option.map_some, Option.some.injEq,
      if_true, if_false, true_and, and_true, false_and, and_false]
    split_ifs <;> constructor <;> norm_num [min_def]

/-- Claim C10 — implicit confidence lower bound: every intent `parse` returns
has confidence between 0.7 and 1.0 (in particular at least the integration
layer's 0.6 threshold, which therefore never rejects a returned intent), and
when neither a room nor a function matched (the direct-device branch) the
confidence is exactly 0.85. -/
theorem parse_confidence_bounds (st : Store) (r : Resolver) (text : String) (i : ParsedIntent)
    (h : parse st r text = some i) :
    7/10 ≤ i.confidence ∧ i.confidence ≤ 1 ∧ confidenceThreshold ≤ i.confidence ∧
    (matchRoom r.rooms (lowerTrim text) = none →
     matchFunction r.functions (lowerTrim text) = none → i.confidence = 17/20) := by
  rcases parse_some_cases st r text i _ _ _ rfl rfl rfl h with
    ⟨_, d, a, _, _, hi⟩ | ⟨a, sids, fl, _, hnn, _, _, _, _, hi⟩
  · rw [hi]
    refine ⟨by norm_num, by norm_num, ?_, fun _ _ => rfl⟩
    unfold confidenceThreshold
    norm_num
  · have hsome : (matchRoom r.rooms (lowerTrim text)).isSome ∨
        (matchFunction r.functions (lowerTrim text)).isSome := by
      by_contra hno
      push_neg at hno
      exact hnn ⟨by simp [Option.not_isSome_iff_eq_none.mp hno.1],
                 by simp [Option.not_isSome_iff_eq_none.mp hno.2]⟩
    have hb := calcConfidence_bounds (matchRoom r.rooms (lowerTrim text))
      (matchFunction r.functions (lowerTrim text)) a (extractValue (lowerTrim text)) hsome
    rw [hi]
    dsimp only
    have hx : (7:ℚ)/10 ≤ (if fl.deviceName.isSome then
        calcConfidence (matchRoom r.rooms (lowerTrim text))
          (matchFunction r.functions (lowerTrim text)) (some a) (extractValue (lowerTrim text)) + 1/20
      else calcConfidence (matchRoom r.rooms (lowerTrim text))
          (matchFunction r.functions (lowerTrim text)) (some a) (extractValue (lowerTrim text))) := by
      split_ifs
      · linarith [hb.1]
      · exact hb.1
    refine ⟨le_min hx (by norm_num), min_le_right _ _, ?_, ?_⟩
    · refine le_trans (by norm_num [confidenceThreshold]) (le_min hx (by norm_num))
    · intro hr hf
      exact absurd ⟨by simp [hr], by simp [hf]⟩ hnn

/-- Witness for C10: a concrete query intent (`function` only) returned with
confidence exactly 0.7, which meets every bound. -/
theorem parse_confidence_bounds_witness :
    (7:ℚ)/10 ≤ 7/10 ∧ (7:ℚ)/10 ≤ 1 ∧ confidenceThreshold ≤ 7/10 := by
  have hs : (parse emptyStore resLicht "wie warm ist das licht").isSome = true := by decide
  obtain ⟨i, hi⟩ := Option.isSome_iff_exists.mp hs
  have heq : i.confidence = 7/10 := by
    rcases parse_some_cases emptyStore resLicht "wie warm ist das licht" i _ _ _ rfl rfl rfl hi with
      ⟨_, d, a, hd, _, _⟩ | ⟨a, sids, fl, ha, _, _, hsids, _, hfl, hi'⟩
    · rw [show searchByDeviceName emptyStore resLicht
          (lowerTrim "wie warm ist das licht") = none from by decide] at hd
      exact absurd hd (by simp)
    · have ha' : a = ⟨.query, lit "wie warm"⟩ := by
        have : detectAction (lowerTrim "wie warm ist das licht")
            = some ⟨.query, lit "wie warm"⟩ := by decide
        rw [this] at ha
        injection ha with h'
        exact h'.symm
      have hsids' : sids = ["a.b"] := by
        rw [hsids]
        decide
      rw [hi']
      dsimp only
      rw [hfl, hsids']
      norm_num
      rw [show matchRoom resLicht.rooms (lowerTrim "wie warm ist das licht") = none from by decide,
          show matchFunction resLicht.functions (lowerTrim "wie warm ist das licht")
            = some ⟨"Licht", "enum.functions.licht"⟩ from by decide,
          show extractValue (lowerTrim "wie warm ist das licht") = none from by decide, ha']
      unfold calcConfidence
      norm_num [min_def]
  have hb := parse_confidence_bounds emptyStore resLicht "wie warm ist das licht" i hi
  rw [heq] at hb
  exact ⟨hb.1, hb.2.1, hb.2.2.1⟩

/-! ### Membership lemmas for the hierarchical intersection -/

theorem mem_foldl_setAdd (x : String) (l acc : List String) :
    x ∈ l.foldl (fun acc y => if y ∈ acc then acc else acc ++ [y]) acc ↔ x ∈ acc ∨ x ∈ l := by
  induction l generalizing acc with
  | nil => simp
  | cons y ys ih =>
    simp only [List.foldl_cons, ih]
    split_ifs with hy
    · constructor
      · rintro (h | h)
        · exact Or.inl h
        · exact Or.inr (List.mem_cons_of_mem _ h)
      · rintro (h | h)
        · exact Or.inl h
        · rcases List.mem_cons.mp h with rfl | h
          · exact Or.inl hy
          · exact Or.inr h
    · simp only [List.mem_append, List.mem_singleton, List.mem_cons]
      tauto

theorem mem_jsSetOfList (x : String) (l : List String) :
    x ∈ jsSetOfList l ↔ x ∈ l := by
  unfold jsSetOfList
  rw [mem_foldl_setAdd]
  simp

theorem nodup_foldl_setAdd (l acc : List String) (h : acc.Nodup) :
    (l.foldl (fun acc y => if y ∈ acc then acc else acc ++ [y]) acc).Nodup := by
  induction l generalizing acc with
  | nil => simpa
  | cons y ys ih =>
    simp only [List.foldl_cons]
    split_ifs with hy
    · exact ih _ h
    · refine ih _ (List.Nodup.append h (List.nodup_singleton y) ?_)
      intro a ha hay
      rcases List.mem_singleton.mp hay with rfl
      exact hy ha

theorem nodup_jsSetOfList (l : List String) : (jsSetOfList l).Nodup :=
  nodup_foldl_setAdd l [] List.nodup_nil

theorem mem_forwardPass (x : String) (R F : List String) :
    x ∈ forwardPass R F ↔
      ∃ r ∈ R, (r ∈ F ∧ x = r) ∨ (r ∉ F ∧ x ∈ F ∧ isPathChild x r = true) := by
  unfold forwardPass
  rw [List.mem_flatMap]
  refine exists_congr fun r => and_congr_right fun _ => ?_
  split_ifs with hrF
  · simp only [List.mem_singleton, hrF, true_and, not_true, false_and, or_false]
  · simp only [List.mem_filter, hrF, false_and, not_false_iff, true_and, false_or]

theorem mem_revInner (x fId : String) (rooms acc : List String) :
    x ∈ revInner fId acc rooms ↔ x ∈ acc ∨ (x ∈ rooms ∧ isPathChild x fId = true) := by
  induction rooms generalizing acc with
  | nil => simp [revInner]
  | cons rId rs ih =>
    simp only [revInner]
    rw [ih]
    split_ifs with hc
    · constructor
      · rintro (hx | hx)
        · rcases List.mem_append.mp hx with hx | hx
          · exact Or.inl hx
          · rcases List.mem_singleton.mp hx with rfl
            exact Or.inr ⟨List.mem_cons_self _ _, hc.1⟩
        · exact Or.inr ⟨List.mem_cons_of_mem _ hx.1, hx.2⟩
      · rintro (hx | ⟨hmem, hchild⟩)
        · exact Or.inl (List.mem_append_left _ hx)
        · rcases List.mem_cons.mp hmem with rfl | hmem
          · exact Or.inl (List.mem_append_right _ (List.mem_singleton_self _))
          · exact Or.inr ⟨hmem, hchild⟩
    · rw [not_and_or, not_not] at hc
      constructor
      · rintro (hx | hx)
        · exact Or.inl hx
        · exact Or.inr ⟨List.mem_cons_of_mem _ hx.1, hx.2⟩
      · rintro (hx | ⟨hmem, hchild⟩)
        · exact Or.inl hx
        · rcases List.mem_cons.mp hmem with rfl | hmem
          · rcases hc with hc | hc
            · exact absurd hchild hc
            · exact Or.inl hc
          · exact Or.inr ⟨hmem, hchild⟩

theorem mem_revPass (x : String) (funcs rooms acc : List String) :
    x ∈ revPass acc rooms funcs ↔
      x ∈ acc ∨ (x ∈ rooms ∧ ∃ f ∈ funcs, isPathChild x f = true) := by
  induction funcs generalizing acc with
  | nil => simp [revPass]
  | cons fId fs ih =>
    simp only [revPass]
    rw [ih, mem_revInner]
    constructor
    · rintro ((hx | ⟨hm, hch⟩) | ⟨hm, f, hf, hch⟩)
      · exact Or.inl hx
      · exact Or.inr ⟨hm, fId, List.mem_cons_self _ _, hch⟩
      · exact Or.inr ⟨hm, f, List.mem_cons_of_mem _ hf, hch⟩
    · rintro (hx | ⟨hm, f, hf, hch⟩)
      · exact Or.inl (Or.inl hx)
      · rcases List.mem_cons.mp hf with rfl | hf
        · exact Or.inl (Or.inr ⟨hm, hch⟩)
        · exact Or.inr ⟨hm, f, hf, hch⟩

/-- A fuzzy match found by `_findEnum` is an entry of the searched map. -/
theorem findEnum_mem (entries : List EnumGroup) (n : String) (e : EnumGroup)
    (h : findEnum entries n = some e) : e ∈ entries := by
  unfold findEnum at h
  dsimp only at h
  split at h
  · injection h with h'; exact h' ▸ List.mem_of_find?_eq_some (by assumption)
  · split at h
    · injection h with h'; exact h' ▸ List.mem_of_find?_eq_some (by assumption)
    · split at h
      · injection h with h'; exact h' ▸ List.mem_of_find?_eq_some (by assumption)
      · split at h
        · injection h with h'; exact h' ▸ List.mem_of_find?_eq_some (by assumption)
        · obtain ⟨g, _, hg⟩ := List.exists_of_findSome?_eq_some h
          split at hg
          · exact List.mem_of_find?_eq_some hg
          · exact absurd hg (by simp)

/-- Claim C2, counterexample — with room members `{a.b}` and function members
`{a.b, a.b.c}`, the member `a.b.c` is a function member and a strict
dot-path child of the room member `a.b`, so the claimed characterisation
requires it in the result; `findStates` returns only `["a.b"]` (the
child-scan of a room member is skipped when that member is itself a function
member). -/
theorem findStates_hier_cex :
    findStates resOverlap (some "R") (some "F") = ["a.b"] ∧
    ("a.b.c" : String) ∉ findStates resOverlap (some "R") (some "F") ∧
    ("a.b.c" : String) ∈ (["a.b", "a.b.c"] : List String) ∧
    isPathChild "a.b.c" "a.b" = true ∧
    ("a.b" : String) ∈ (["a.b"] : List String) :=
  ⟨by decide, by decide, by decide, by decide, by decide⟩

/-- Claim C2, amended — hierarchical-intersection membership: with both names
resolved, a state id is returned iff it is in both member sets, or it is a
function member strictly below a room member *that is not itself a function
member*, or it is a room member strictly below a function member.  (The
claim's two concrete examples fall under the second and third disjunct.) -/
theorem findStates_hier_membership (r : Resolver) (rn fn : String) (re fe : EnumGroup)
    (x : String) (hrn : rn ≠ "") (hfn : fn ≠ "")
    (hre : findEnum r.rooms rn = some re) (hfe : findEnum r.functions fn = some fe) :
    x ∈ findStates r (some rn) (some fn) ↔
      (x ∈ re.members ∧ x ∈ fe.members) ∨
      (x ∈ fe.members ∧ ∃ rId ∈ re.members, rId ∉ fe.members ∧ isPathChild x rId = true) ∨
      (x ∈ re.members ∧ ∃ fId ∈ fe.members, isPathChild x fId = true) := by
  unfold findStates
  simp only [hrn, hfn, if_neg, if_false]
  rw [hre, hfe]
  dsimp only
  rw [mem_revPass, mem_forwardPass]
  constructor
  · rintro (⟨rId, hr, ⟨hrF, rfl⟩ | ⟨hrF, hxF, hch⟩⟩ | ⟨hm, f, hf, hch⟩)
    · exact Or.inl ⟨(mem_jsSetOfList _ _).mp hr, (mem_jsSetOfList _ _).mp hrF⟩
    · exact Or.inr (Or.inl ⟨(mem_jsSetOfList _ _).mp hxF,
        rId, (mem_jsSetOfList _ _).mp hr, fun hm => hrF ((mem_jsSetOfList _ _).mpr hm), hch⟩)
    · exact Or.inr (Or.inr ⟨(mem_jsSetOfList _ _).mp hm,
        f, (mem_jsSetOfList _ _).mp hf, hch⟩)
  · rintro (⟨hr, hf⟩ | ⟨hxF, rId, hr, hrF, hch⟩ | ⟨hr, f, hf, hch⟩)
    · exact Or.inl ⟨x, (mem_jsSetOfList _ _).mpr hr, Or.inl ⟨(mem_jsSetOfList _ _).mpr hf, rfl⟩⟩
    · exact Or.inl ⟨rId, (mem_jsSetOfList _ _).mpr hr,
        Or.inr ⟨fun hm => hrF ((mem_jsSetOfList _ _).mp hm), (mem_jsSetOfList _ _).mpr hxF, hch⟩⟩
    · exact Or.inr ⟨(mem_jsSetOfList _ _).mpr hr, f, (mem_jsSetOfList _ _).mpr hf, hch⟩

/-- Witness for C2 (amended): both concrete examples of the claim — room
member `a.b` with function member `a.b.c` (child direction) and room member
`a.b.c` with function member `a.b` (parent direction) both yield `a.b.c`. -/
theorem findStates_hier_membership_witness :
    ("a.b.c" : String) ∈ findStates resChild (some "R") (some "F") ∧
    ("a.b.c" : String) ∈ findStates resParent (some "R") (some "F") := by
  constructor
  · exact (findStates_hier_membership resChild "R" "F" ⟨"enum.rooms.r", "R", ["a.b"]⟩
      ⟨"enum.functions.f", "F", ["a.b.c"]⟩ "a.b.c" (by decide) (by decide)
      (by decide) (by decide)).mpr (by decide)
  · exact (findStates_hier_membership resParent "R" "F" ⟨"enum.rooms.r", "R", ["a.b.c"]⟩
      ⟨"enum.functions.f", "F", ["a.b"]⟩ "a.b.c" (by decide) (by decide)
      (by decide) (by decide)).mpr (by decide)

/-! ### No-duplicate lemmas for the resolved state ids -/

/-- Two strict dot-path ancestors of the same id are equal or nested: dot-path
prefixes of one string are pairwise comparable. -/
theorem pathChild_comparable {x r1 r2 : String} (h1 : isPathChild x r1 = true)
    (h2 : isPathChild x r2 = true) :
    r1 = r2 ∨ isPathChild r2 r1 = true ∨ isPathChild r1 r2 = true := by
  unfold isPathChild at *
  rw [List.isPrefixOf_iff_prefix] at h1 h2
  rw [List.isPrefixOf_iff_prefix, List.isPrefixOf_iff_prefix]
  have key : ∀ a b : String, (a.toList ++ ['.']) <+: (b.toList ++ ['.']) →
      a = b ∨ (a.toList ++ ['.']) <+: b.toList := by
    intro a b hab
    rcases Nat.lt_or_ge a.toList.length b.toList.length with hlt | hge
    · right
      obtain ⟨t, ht⟩ := hab
      have htake : (a.toList ++ ['.']) = (b.toList ++ ['.']).take (a.toList.length + 1) := by
        rw [← ht, List.take_append_of_le_length (by simp), List.take_of_length_le (by simp)]
      rw [htake, List.take_append_of_le_length hlt]
      exact List.take_prefix _ _
    · left
      have hlen : (a.toList ++ ['.']).length = (b.toList ++ ['.']).length := by
        have h1 := hab.length_le
        simp only [List.length_append, List.length_singleton] at h1 ⊢
        omega
      have heq := hab.eq_of_length hlen
      have hlen' : a.toList.length = b.toList.length := by
        simp only [List.length_append, List.length_singleton] at hlen
        omega
      have hdata : a.toList = b.toList := List.append_inj_left heq hlen'
      cases a; cases b
      simp only [String.toList] at hdata
      rw [hdata]
  rcases List.prefix_or_prefix_of_prefix h1 h2 with h | h
  · rcases key _ _ h with h' | h'
    · exact Or.inl h'
    · exact Or.inr (Or.inl h')
  · rcases key _ _ h with h' | h'
    · exact Or.inl h'.symm
    · exact Or.inr (Or.inr h')

/-- The forward pass produces no duplicates when no room member is a strict
dot-path ancestor of another room member. -/
theorem nodup_forwardPass (F : List String) (hF : F.Nodup) :
    ∀ R : List String, R.Nodup →
      (∀ r1 ∈ R, ∀ r2 ∈ R, ¬ isPathChild r2 r1 = true) →
      (forwardPass R F).Nodup := by
  intro R
  unfold forwardPass
  induction R with
  | nil => intro _ _; simp
  | cons r rs ih =>
    intro hR hnest
    have hr_rs : r ∉ rs := (List.nodup_cons.mp hR).1
    have hrs : rs.Nodup := (List.nodup_cons.mp hR).2
    have hnest' : ∀ r1 ∈ rs, ∀ r2 ∈ rs, ¬ isPathChild r2 r1 = true :=
      fun r1 g1 r2 g2 => hnest r1 (List.mem_cons_of_mem _ g1) r2 (List.mem_cons_of_mem _ g2)
    rw [List.flatMap_cons]
    refine List.Nodup.append ?_ (ih hrs hnest') ?_
    · split_ifs with hrF
      · exact List.nodup_singleton r
      · exact hF.filter _
    · intro x hx1 hx2
      obtain ⟨r', hr', hcase⟩ := (mem_forwardPass x rs F).mp hx2
      by_cases hrF : r ∈ F
      · rw [if_pos hrF] at hx1
        rcases List.mem_singleton.mp hx1 with rfl
        rcases hcase with ⟨_, rfl⟩ | ⟨_, _, hch⟩
        · exact hr_rs hr'
        · exact hnest r' (List.mem_cons_of_mem _ hr') x (List.mem_cons_self _ _) hch
      · rw [if_neg hrF] at hx1
        have hx1' := List.mem_filter.mp hx1
        rcases hcase with ⟨_, rfl⟩ | ⟨_, _, hch⟩
        · exact hnest r (List.mem_cons_self _ _) x (List.mem_cons_of_mem _ hr') hx1'.2
        · rcases pathChild_comparable hx1'.2 hch with rfl | h | h
          · exact hr_rs hr'
          · exact hnest r (List.mem_cons_self _ _) r' (List.mem_cons_of_mem _ hr') h
          · exact hnest r' (List.mem_cons_of_mem _ hr') r (List.mem_cons_self _ _) h

/-- The reverse pass's inner loop preserves `Nodup` (the `includes` guard). -/
theorem nodup_revInner (fId : String) (rooms : List String) :
    ∀ acc : List String, acc.Nodup → (revInner fId acc rooms).Nodup := by
  induction rooms with
  | nil => intro acc h; simpa [revInner]
  | cons rId rs ih =>
    intro acc h
    simp only [revInner]
    split_ifs with hc
    · refine ih _ (List.Nodup.append h (List.nodup_singleton _) ?_)
      intro a ha hay
      rcases List.mem_singleton.mp hay with rfl
      exact hc.2 ha
    · exact ih _ h

theorem nodup_revPass (rooms funcs : List String) :
    ∀ acc : List String, acc.Nodup → (revPass acc rooms funcs).Nodup := by
  induction funcs with
  | nil => intro acc h; simpa [revPass]
  | cons fId fs ih =>
    intro acc h
    simp only [revPass]
    exact ih _ (nodup_revInner fId rooms acc h)

/-- Embeds `findStates` returns no duplicates provided no room-enum member list
contains nested members (one a strict dot-path ancestor of another). -/
theorem findStates_nodup (r : Resolver) (rn fn : Option String)
    (hnest : ∀ g ∈ r.rooms, ∀ r1 ∈ g.members, ∀ r2 ∈ g.members, ¬ isPathChild r2 r1 = true) :
    (findStates r rn fn).Nodup := by
  unfold findStates
  dsimp only
  split
  · split
    · exact List.nodup_nil
    · split
      · exact List.nodup_nil
      · refine nodup_revPass _ _ _ (nodup_forwardPass _ (nodup_jsSetOfList _) _
          (nodup_jsSetOfList _) ?_)
        intro r1 h1 r2 h2
        exact hnest _ (findEnum_mem r.rooms _ _ (by assumption)) r1
          ((mem_jsSetOfList _ _).mp h1) r2 ((mem_jsSetOfList _ _).mp h2)
  · split
    · exact nodup_jsSetOfList _
    · exact List.nodup_nil
  · split
    · exact nodup_jsSetOfList _
    · exact List.nodup_nil
  · exact List.nodup_nil

/-- Embeds `Map.set` preserves key uniqueness. -/
theorem mapSet_keys_nodup (m : List (String × List String)) (k : String) (v : List String)
    (h : (m.map Prod.fst).Nodup) : ((mapSet m k v).map Prod.fst).Nodup := by
  unfold mapSet
  split_ifs with hk
  · have hkeys : ((m.map fun p => if p.1 == k then (k, v) else p).map Prod.fst)
        = m.map Prod.fst := by
      rw [List.map_map]
      refine List.map_congr_left fun p _ => ?_
      dsimp only [Function.comp]
      split_ifs with hpk
      · exact (eq_of_beq hpk).symm
      · rfl
    rw [hkeys]
    exact h
  · rw [List.map_append]
    refine List.Nodup.append h (by simp) ?_
    intro a ha hay
    rcases List.mem_singleton.mp (by simpa using hay) with rfl
    obtain ⟨p, hp, hpk⟩ := List.mem_map.mp ha
    exact hk (List.any_eq_true.mpr ⟨p, hp, by rw [hpk]; exact beq_self_eq_true _⟩)

/-- The map built by the first loop of `filterByDeviceName` has unique keys. -/
theorem keys_nodup_foldl (f : String → List String) (g : List String → String → List String)
    (sids : List String) :
    ∀ init : List (String × List String) × List String, (init.1.map Prod.fst).Nodup →
      ((sids.foldl (fun acc sid => (mapSet acc.1 sid (f sid), g acc.2 sid)) init).1.map
        Prod.fst).Nodup := by
  induction sids with
  | nil => intro init h; simpa
  | cons sid ss ih =>
    intro init h
    rw [List.foldl_cons]
    exact ih _ (mapSet_keys_nodup _ _ _ h)

/-- The owners list of a name is a sublist of the map's keys. -/
theorem owners_sublist (m : List (String × List String)) (name : String) :
    (m.filterMap fun p => if name ∈ p.2 then some p.1 else none).Sublist
      (m.map Prod.fst) := by
  induction m with
  | nil => simp
  | cons p ps ih =>
    rw [List.filterMap_cons, List.map_cons]
    split
    · exact ih.cons _
    · rename_i v hv
      have hvp : v = p.1 := by
        by_cases hnp : name ∈ p.2
        · rw [if_pos hnp] at hv
          injection hv with h'
          exact h'.symm
        · rw [if_neg hnp] at hv
          exact absurd hv (by simp)
      rw [hvp]
      exact ih.cons₂ _

/-- The best-candidate fold of `filterByDeviceName` only ever returns an
element of its input list (or its initial accumulator). -/
theorem bestFold_mem (n : Nat) (l : List (String × List String)) :
    ∀ (b : Option (String × List String)) (q : String × List String),
      l.foldl (fun b p =>
        if p.2.length = 0 ∨ p.2.length = n then b
        else
          match b with
          | none => some p
          | some qq =>
            if p.1.length > qq.1.length ∨ (p.1.length = qq.1.length ∧ p.2.length < qq.2.length)
            then some p
            else b) b = some q →
      q ∈ l ∨ b = some q := by
  induction l with
  | nil => intro b q h; exact Or.inr h
  | cons p ps ih =>
    intro b q h
    rw [List.foldl_cons] at h
    rcases ih _ q h with hq | hq
    · exact Or.inl (List.mem_cons_of_mem _ hq)
    · split_ifs at hq with h1
      · exact Or.inr hq
      · cases b with
        | none =>
          injection hq with h'
          exact Or.inl (h' ▸ List.mem_cons_self _ _)
        | some qq =>
          by_cases hcmp : p.1.length > qq.1.length ∨
              (p.1.length = qq.1.length ∧ p.2.length < qq.2.length)
          · rw [show (match some qq with
                | none => some p
                | some qq =>
                  if p.1.length > qq.1.length ∨ (p.1.length = qq.1.length ∧ p.2.length < qq.2.length)
                  then some p
                  else some qq) = if p.1.length > qq.1.length ∨
                    (p.1.length = qq.1.length ∧ p.2.length < qq.2.length) then some p else some qq
                from rfl, if_pos hcmp] at hq
            injection hq with h'
            exact Or.inl (h' ▸ List.mem_cons_self _ _)
          · rw [show (match some qq with
                | none => some p
                | some qq =>
                  if p.1.length > qq.1.length ∨ (p.1.length = qq.1.length ∧ p.2.length < qq.2.length)
                  then some p
                  else some qq) = if p.1.length > qq.1.length ∨
                    (p.1.length = qq.1.length ∧ p.2.length < qq.2.length) then some p else some qq
                from rfl, if_neg hcmp] at hq
            exact Or.inr hq

/-- Embeds `filterByDeviceName` preserves `Nodup`: it returns either the input set
or an owners list drawn from the unique keys of the per-state name map. -/
theorem filterByDeviceName_nodup (st : Store) (sids : List String) (L : List Char)
    (h : sids.Nodup) : (filterByDeviceName st sids L).stateIds.Nodup := by
  unfold filterByDeviceName
  split_ifs with hlen
  · exact h
  · dsimp only
    split
    · rename_i q hq
      rcases bestFold_mem sids.length _ _ _ hq with hmem | hnone
      · obtain ⟨name, _, hf⟩ := List.mem_filterMap.mp hmem
        split_ifs at hf
        injection hf with h'
        have hq2 : q.2 = ((sids.foldl (fun acc sid =>
            (mapSet acc.1 sid (collectHierarchyNames st sid []),
             (collectHierarchyNames st sid []).foldl setAdd acc.2)) ([], [])).1.filterMap
              fun p => if name ∈ p.2 then some p.1 else none) := by
          rw [← h']
        rw [hq2]
        exact (owners_sublist _ _).nodup
          (keys_nodup_foldl (fun sid => collectHierarchyNames st sid [])
            (fun ns sid => (collectHierarchyNames st sid []).foldl setAdd ns)
            sids ([], []) (by simp))
      · exact absurd hnone (by simp)
    · exact h

/-- Claim C7, counterexample — with nested room members `{a, a.b}` (one a
strict dot-path prefix of the other) and function member `{a.b.c}`, the
intent returned by `parse` for `"r f ein"` carries the state id `a.b.c`
twice: `stateIds` is not duplicate-free. -/
theorem stateIds_dup_cex :
    (parse emptyStore resNested "r f ein").map (fun i => i.stateIds)
        = some ["a.b.c", "a.b.c"] ∧
      ¬ (["a.b.c", "a.b.c"] : List String).Nodup :=
  ⟨by decide, by decide⟩

/-- Claim C7, amended — for every intent returned by `parse`, `stateIds` has no
duplicates, provided no room-enum member list contains nested members (a
member that is a strict dot-path prefix of another member of the same room
enum); with nested room members the same function member can be collected
once per room ancestor (see the counterexample). -/
theorem parse_stateIds_nodup (st : Store) (r : Resolver) (text : String) (i : ParsedIntent)
    (hnest : ∀ g ∈ r.rooms, ∀ r1 ∈ g.members, ∀ r2 ∈ g.members, ¬ isPathChild r2 r1 = true)
    (h : parse st r text = some i) : i.stateIds.Nodup := by
  rcases parse_some_cases st r text i _ _ _ rfl rfl rfl h with
    ⟨_, d, a, _, _, hi⟩ | ⟨a, sids, fl, _, _, _, hsids, _, hfl, hi⟩
  · rw [hi]
    exact List.nodup_singleton _
  · rw [hi]
    dsimp only
    have hs : sids.Nodup := hsids ▸ findStates_nodup r _ _ hnest
    rw [hfl]
    split_ifs with hlen
    · exact filterByDeviceName_nodup st sids _ hs
    · exact hs

/-- Witness for C7 (amended): room members `{a.b}` are not nested, and the
returned intent's `stateIds` (`["a.b.c"]`) is duplicate-free. -/
theorem parse_stateIds_nodup_witness : (["a.b.c"] : List String).Nodup := by
  have hs : (parse emptyStore resChild "r f ein").isSome = true := by decide
  obtain ⟨i, hi⟩ := Option.isSome_iff_exists.mp hs
  have hids : i.stateIds = ["a.b.c"] := by
    have hmap : (parse emptyStore resChild "r f ein").map (fun j => j.stateIds)
        = some ["a.b.c"] := by decide
    rw [hi] at hmap
    injection hmap
  exact hids ▸ parse_stateIds_nodup emptyStore resChild "r f ein" i (by decide) hi

/-! ### The confidence formula -/

/-- Capping before and after adding a nonnegative bump equals a single cap
of the full sum (`Math.min(score, 1)` composed with `Math.min(conf + 0.05, 1)`). -/
theorem min_cap_add (s d : ℚ) (hd : 0 ≤ d) : min (min s 1 + d) 1 = min (s + d) 1 := by
  rcases le_total s 1 with h | h
  · rw [min_eq_left h]
  · rw [min_eq_right h, min_eq_right (by linarith), min_eq_right (by linarith)]

/-- Embeds `_calcConfidence` as a flat sum of its bonus terms under a single cap. -/
theorem calcConfidence_eq_sum (rm fn : Option EnumMatch) (a : ActionMatch) (v : Option ValueInfo) :
    calcConfidence rm fn (some a) v
      = min ((3:ℚ)/10 + (if rm.isSome then (2:ℚ)/10 else 0) + (if fn.isSome then (2:ℚ)/10 else 0)
          + 2/10 + (if v.isSome ∧ a.type = .set_value then (1:ℚ)/10 else 0)
          + (if rm.isSome ∧ fn.isSome then (1:ℚ)/10 else 0)) 1 := by
  unfold calcConfidence
  dsimp only
  simp only [Option.isSome_some, if_true, Option.map_some, Option.map_some',
    Option.some.injEq, true_and]
  split_ifs <;> norm_num

/-- Claim C3 — confidence scoring formula: every intent produced on the
room/function path scores 0.3 base, +0.2 for each of room matched, function
matched and action detected, +0.1 when a numeric value was extracted with a
`set_value` action, +0.1 when both room and function matched, +0.05 when
device-name narrowing selected a device, capped at 1.0 (the code's
cap-before-bump composes to the same single cap). -/
theorem parse_confidence_formula (st : Store) (r : Resolver) (text : String) (i : ParsedIntent)
    (h : parse st r text = some i)
    (hpath : i.room.isSome ∨ i.function.isSome) :
    i.confidence = min ((3:ℚ)/10
      + (if (matchRoom r.rooms (lowerTrim text)).isSome then (2:ℚ)/10 else 0)
      + (if (matchFunction r.functions (lowerTrim text)).isSome then (2:ℚ)/10 else 0)
      + 2/10
      + (if (extractValue (lowerTrim text)).isSome ∧ i.action = .set_value then (1:ℚ)/10 else 0)
      + (if (matchRoom r.rooms (lowerTrim text)).isSome ∧
            (matchFunction r.functions (lowerTrim text)).isSome then (1:ℚ)/10 else 0)
      + (if i.deviceName.isSome then (1:ℚ)/20 else 0)) 1 := by
  rcases parse_some_cases st r text i _ _ _ rfl rfl rfl h with
    ⟨_, d, a, _, _, hi⟩ | ⟨a, sids, fl, ha, _, _, _, _, _, hi⟩
  · rw [hi] at hpath
    simp at hpath
  · rw [hi]
    dsimp only
    by_cases hdn : fl.deviceName.isSome
    · rw [if_pos hdn, if_pos hdn, calcConfidence_eq_sum, min_cap_add _ _ (by norm_num)]
    · rw [if_neg hdn, if_neg hdn, add_zero, calcConfidence_eq_sum,
        min_eq_left (min_le_right _ _)]

/-- Witness for C3: the query `"wie warm ist das licht"` over the `Licht`
function enum yields an intent whose confidence is exactly the formula's
value (function + action terms only). -/
theorem parse_confidence_formula_witness :
    (parse emptyStore resLicht "wie warm ist das licht").map (fun i => i.confidence)
      = some (min ((3:ℚ)/10 + 0 + 2/10 + 2/10 + 0 + 0 + 0) 1) := by
  obtain ⟨i, hi⟩ := Option.isSome_iff_exists.mp
    (show (parse emptyStore resLicht "wie warm ist das licht").isSome = true from by decide)
  have hpath : i.room.isSome ∨ i.function.isSome := by
    have hmap : (parse emptyStore resLicht "wie warm ist das licht").map (fun j => j.function)
        = some (some "Licht") := by decide
    rw [hi] at hmap
    injection hmap with h'
    dsimp only at h'
    rw [h']
    exact Or.inr rfl
  have hf := parse_confidence_formula emptyStore resLicht _ i hi hpath
  have hdev : i.deviceName = none := by
    have hmap : (parse emptyStore resLicht "wie warm ist das licht").map (fun j => j.deviceName)
        = some none := by decide
    rw [hi] at hmap
    injection hmap
  rw [hi]
  refine congrArg some ?_
  dsimp only
  rw [hf, hdev,
    show matchRoom resLicht.rooms (lowerTrim "wie warm ist das licht") = none from by decide,
    show matchFunction resLicht.functions (lowerTrim "wie warm ist das licht")
      = some ⟨"Licht", "enum.functions.licht"⟩ from by decide,
    show extractValue (lowerTrim "wie warm ist das licht") = none from by decide]
  simp only [Option.isSome_none, Option.isSome_some, if_true, if_false, false_and, and_false,
    true_and, and_true, if_neg, Bool.false_eq_true]

end AiAssistant
